import Mathlib

/-!
Shallow embedding of the lead-miner enrichment-and-scoring pipeline
(src/enricher.js, src/scorer.js, sentiment wrapper of review-scraper.js).

Conventions of the embedding:
* JS numbers that only ever hold integral values (ratings, timestamps,
  review counts, points) are modelled as Int / Nat; values produced by
  division (averages, rates, the trend change) are modelled as Rat.
* A JS value that may be null/undefined is an Option; the JS truthiness
  test on strings additionally treats the empty string as falsy.
* Date values are primitive millisecond timestamps (Int); the implicit
  Date.now() is passed in explicitly as a parameter named now.
* Code paths that throw a TypeError (a method call on undefined) are
  modelled with Except, the error carrying the would-be message.
-/

/-- The label object stored on a review by the scraper stage
(analyzeSentiment in review-scraper.js): score, comparative, categorical
label, and word hit lists.  On empty text the source returns a partial
object holding only score and label, hence the Option fields. -/
structure SentimentData where
  score : Int
  comparative : Option Rat
  label : String
  positive : Option (List String)
  negative : Option (List String)
  deriving DecidableEq

/-- One review as consumed by the enricher: rating, text, date
(millisecond timestamp), the stored sentiment block if any, and the two
owner-response markers consulted by calculateResponseRate. -/
structure Review where
  rating : Int
  text : String
  date : Int
  sentiment : Option SentimentData
  ownerResponse : Bool
  response : Bool
  deriving DecidableEq

/-- A business record as consumed by the enricher and scorer.  reviews is
an Option because an input record may lack the field altogether. -/
structure Lead where
  id : String
  name : String
  rating : Rat
  category : String
  phone : Option String
  email : Option String
  website : Option String
  address : Option String
  totalReviews : Nat
  reviews : Option (List Review)
  deriving DecidableEq

/-- JS: x || null for a string field, mapping the empty string to null. -/
def jsStr : Option String → Option String
  | some "" => none
  | x => x

/-- JS truthiness of a nullable string. -/
def jsTruthy : Option String → Bool
  | none => false
  | some s => !s.isEmpty

/-- JS Math.round: floor (x + 1/2), also for negative arguments. -/
def jsRound (q : Rat) : Int :=
  Int.floor (q + 1 / 2)

/-- parseFloat (x.toFixed 2): round to two decimals, ties toward +inf
(the larger candidate, as ECMA toFixed specifies). -/
def roundTo2 (q : Rat) : Rat :=
  (jsRound (q * 100) : Rat) / 100

/-- One step of a stable descending insertion sort with key f: the new
element goes after every element whose key is at least its own.  This is
the unique output contract of the (stable) Array.prototype.sort with
comparator fun a b => f b - f a. -/
def insDescBy {α : Type} (f : α → Int) (x : α) : List α → List α
  | [] => [x]
  | y :: ys => if f x ≤ f y then y :: insDescBy f x ys else x :: y :: ys

/-- Stable sort, descending by key f. -/
def sortDescBy {α : Type} (f : α → Int) (l : List α) : List α :=
  l.foldl (fun acc x => insDescBy f x acc) []

/-- Helper averageRating of enricher.js: 0 on an empty list, else the
rating sum divided by the length.  (r.rating || 0) is r.rating for every
integer rating, 0 included. -/
def averageRating (rs : List Review) : Rat :=
  if rs.length = 0 then 0
  else ((rs.foldl (fun acc r => acc + r.rating) 0 : Int) : Rat) / (rs.length : Rat)

/-- Result block of calculateReviewTrend.  The insufficient-data return
of the source carries only trend and change, hence the Option fields. -/
structure TrendResult where
  trend : String
  change : Rat
  recentAvg : Option Rat
  olderAvg : Option Rat
  trendScore : Option String
  deriving DecidableEq

/-- The insufficient-data trend block returned for an absent or short
review list. -/
def insufficientTrend : TrendResult :=
  { trend := "insufficient_data", change := 0,
    recentAvg := none, olderAvg := none, trendScore := none }

/-- calculateReviewTrend of enricher.js: absent list or fewer than five
reviews gives insufficient_data; otherwise sort by date descending, split
at floor half, and compare the mean ratings of the two halves. -/
def calculateReviewTrend (reviews : Option (List Review)) : TrendResult :=
  match reviews with
  | none => insufficientTrend
  | some rs =>
    if rs.length < 5 then insufficientTrend
    else
      let sorted := sortDescBy (fun r => r.date) rs
      let mid := sorted.length / 2
      let recentAvg := averageRating (sorted.take mid)
      let olderAvg := averageRating (sorted.drop mid)
      let change := recentAvg - olderAvg
      { trend := if change < -(3/10) then "worsening"
                 else if (3/10) < change then "improving" else "stable",
        change := roundTo2 change,
        recentAvg := some (roundTo2 recentAvg),
        olderAvg := some (roundTo2 olderAvg),
        trendScore := some (if change < -(1/2) then "critical"
                            else if change < -(3/10) then "high" else "moderate") }

/-- Result block of estimateBusinessSize. -/
structure SizeResult where
  size : String
  category : String
  totalReviews : Nat
  sizeScore : Rat
  deriving DecidableEq

/-- estimateBusinessSize of enricher.js: tiers by totalReviews and a
0-100 size score of min (total / 10) 100. -/
def estimateBusinessSize (lead : Lead) : SizeResult :=
  let total := lead.totalReviews
  let p : String × String :=
    if total < 10 then ("very_small", "Micro (<10 reviews)")
    else if total < 50 then ("small", "Small (10-50 reviews)")
    else if total < 200 then ("medium", "Medium (50-200 reviews)")
    else if total < 500 then ("large", "Large (200-500 reviews)")
    else ("very_large", "Very Large (500+ reviews)")
  { size := p.1, category := p.2, totalReviews := total,
    sizeScore := min ((total : Rat) / 10) 100 }

/-- Result block of calculateResponseRate.  The zero return of the source
carries no engagement field, hence the Option. -/
structure RateResult where
  rate : Rat
  responded : Nat
  total : Nat
  percentage : String
  engagement : Option String
  deriving DecidableEq

/-- The all-zero response-rate block returned for an absent or empty
review list. -/
def zeroRate : RateResult :=
  { rate := 0, responded := 0, total := 0, percentage := "0%", engagement := none }

/-- calculateResponseRate of enricher.js: fraction of reviews carrying
either owner-response marker, rounded to two decimals, with a percentage
string and an engagement tier from the unrounded rate. -/
def calculateResponseRate (reviews : Option (List Review)) : RateResult :=
  match reviews with
  | none => zeroRate
  | some rs =>
    if rs.length = 0 then zeroRate
    else
      let responded := (rs.filter (fun r => r.ownerResponse || r.response)).length
      let total := rs.length
      let rate : Rat := (responded : Rat) / (total : Rat)
      { rate := roundTo2 rate, responded := responded, total := total,
        percentage := toString (jsRound (rate * 100)) ++ "%",
        engagement := some (if (7/10 : Rat) < rate then "high"
                            else if (3/10 : Rat) < rate then "moderate" else "low") }

/-- Lowercasing of a text, modelling String.prototype.toLowerCase on the
ASCII texts the lexicon terms are drawn from. -/
def lowerStr (s : String) : String :=
  String.mk (s.data.map Char.toLower)

/-- Substring containment on character lists, modelling
String.prototype.includes. -/
def containsSub : List Char → List Char → Bool
  | [], pat => pat.isEmpty
  | c :: t, pat => pat.isPrefixOf (c :: t) || containsSub t pat

/-- Whether the lowercased review text contains the given lexicon term. -/
def textContains (text kw : String) : Bool :=
  containsSub (lowerStr text).data kw.data

/-- The fixed complaint lexicon of extractNegativeKeywords, in its
source enumeration order. -/
def complaintKeywords : List String :=
  ["slow", "rude", "dirty", "cold", "wait", "poor", "terrible", "worst",
   "disappointed", "never", "avoid", "bad", "horrible", "disgusting",
   "unprofessional", "delayed", "broken", "outdated", "overpriced"]

/-- The negativity test of extractNegativeKeywords:
r.rating <= 2 || r.sentiment?.sentiment === negative (the stored field). -/
def isNegKW (r : Review) : Bool :=
  decide (r.rating ≤ 2) ||
    (match r.sentiment with
     | some s => s.label == "negative"
     | none => false)

/-- Map.set semantics on an insertion-ordered association list: increment
in place, or append a fresh entry with count 1 at the end. -/
def bump (k : String) : List (String × Nat) → List (String × Nat)
  | [] => [(k, 1)]
  | (k', c) :: rest =>
    if k' == k then (k', c + 1) :: rest else (k', c) :: bump k rest

/-- One review of the counting loop of extractNegativeKeywords: scan the
lexicon in order and bump every term the lowercased text contains. -/
def tallyReview (found : List (String × Nat)) (r : Review) : List (String × Nat) :=
  complaintKeywords.foldl
    (fun f kw => if textContains r.text kw then bump kw f else f) found

/-- The full insertion-ordered keyword tally over a review list. -/
def keywordCounts (negs : List Review) : List (String × Nat) :=
  negs.foldl tallyReview []

/-- extractNegativeKeywords of enricher.js.  The source calls
reviews.filter directly, so an absent review list throws; otherwise the
tally over the negative reviews is stably sorted by count descending and
cut to the top five. -/
def extractNegativeKeywords (reviews : Option (List Review)) :
    Except String (List (String × Nat)) :=
  match reviews with
  | none => Except.error "TypeError: Cannot read properties of undefined (reading filter)"
  | some rs =>
    let negativeReviews := rs.filter isNegKW
    if negativeReviews.length = 0 then Except.ok []
    else Except.ok ((sortDescBy (fun p => (p.2 : Int)) (keywordCounts negativeReviews)).take 5)

/-- Result block of getLastNegativeReviewDate. -/
structure LastNegInfo where
  date : Int
  daysAgo : Int
  recency : String
  deriving DecidableEq

/-- getLastNegativeReviewDate of enricher.js.  The source calls
reviews.filter directly, so an absent review list throws; otherwise the
rating <= 2 reviews are sorted by date descending and the first supplies
the date, the floor day difference from now, and the recency tier. -/
def getLastNegativeReviewDate (now : Int) (reviews : Option (List Review)) :
    Except String (Option LastNegInfo) :=
  match reviews with
  | none => Except.error "TypeError: Cannot read properties of undefined (reading filter)"
  | some rs =>
    match sortDescBy (fun r => r.date) (rs.filter (fun r => decide (r.rating ≤ 2))) with
    | [] => Except.ok none
    | first :: _ =>
      let daysAgo := Int.fdiv (now - first.date) 86400000
      Except.ok (some
        { date := first.date, daysAgo := daysAgo,
          recency := if daysAgo < 7 then "very_recent"
                     else if daysAgo < 30 then "recent" else "old" })

/-- A backtracking matcher: from an input suffix, the list of possible
remaining suffixes in regex backtracking preference order. -/
abbrev RexM := List Char → List (List Char)

/-- Match one character satisfying p. -/
def charM (p : Char → Bool) : RexM :=
  fun s => match s with
  | c :: t => if p c then [t] else []
  | [] => []

/-- Sequencing of matchers, preference order preserved lexicographically. -/
def seqM (m1 m2 : RexM) : RexM :=
  fun s => (m1 s).flatMap m2

/-- Greedy optional: try matching first, then skipping. -/
def optM (m : RexM) : RexM :=
  fun s => m s ++ [s]

/-- Exactly n digit characters. -/
def digitsM : Nat → RexM
  | 0 => fun s => [s]
  | n + 1 => seqM (charM Char.isDigit) (digitsM n)

/-- The whitespace class of the phone pattern. -/
def isWSChar (c : Char) : Bool :=
  c == ' ' || c == '\t' || c == '\n' || c == '\r' ||
    c == Char.ofNat 11 || c == Char.ofNat 12

/-- The separator class [-.\s] of the phone pattern. -/
def isSepChar (c : Char) : Bool :=
  c == '-' || c == '.' || isWSChar c

/-- The phone regex of enricher.js,
(+?1?[-.s]?)?(?ddd)?[-.s]?ddd[-.s]?dddd with the character classes
above, as a backtracking matcher. -/
def phoneM : RexM :=
  seqM
    (optM (seqM (optM (charM (fun c => c == '+')))
      (seqM (optM (charM (fun c => c == '1'))) (optM (charM isSepChar)))))
    (seqM (optM (charM (fun c => c == '(')))
      (seqM (digitsM 3)
        (seqM (optM (charM (fun c => c == ')')))
          (seqM (optM (charM isSepChar))
            (seqM (digitsM 3)
              (seqM (optM (charM isSepChar)) (digitsM 4)))))))

/-- Leftmost match search: at each start position, the preferred match of
phoneM, reported as the consumed prefix. -/
def phoneSearch : List Char → Option (List Char)
  | [] => match (phoneM []).head? with
    | some _ => some []
    | none => none
  | c :: t => match (phoneM (c :: t)).head? with
    | some r => some ((c :: t).take ((c :: t).length - r.length))
    | none => phoneSearch t

/-- String.prototype.match with the phone pattern: the first matched
substring, if any. -/
def matchPhone (s : String) : Option String :=
  (phoneSearch s.data).map (fun l => String.mk l)

/-- extractDomain of enricher.js: strip an http(s) scheme and a leading
www., then keep everything before the first slash. -/
def extractDomain (url : String) : Option String :=
  if url.isEmpty then none
  else
    let cs := url.data
    let cs1 := if "https://".data.isPrefixOf cs then cs.drop 8
               else if "http://".data.isPrefixOf cs then cs.drop 7 else cs
    let cs2 := if "www.".data.isPrefixOf cs1 then cs1.drop 4 else cs1
    some (String.mk (cs2.takeWhile (fun c => c != '/')))

/-- The contactInfo enrichment block. -/
structure ContactInfo where
  phone : Option String
  email : Option String
  website : Option String
  emailType : Option String
  hasContact : Bool
  deriving DecidableEq

/-- enrichContactInfo of enricher.js: copy phone/email/website, fall back
to a phone pattern extracted from the address, synthesize an estimated
info@domain address from the website, then set hasContact from the
truthiness of the three resulting fields. -/
def enrichContactInfo (lead : Lead) : ContactInfo :=
  let phone0 := jsStr lead.phone
  let phone1 :=
    match phone0 with
    | some p => some p
    | none =>
      match jsStr lead.address with
      | some a => matchPhone a
      | none => none
  let website := jsStr lead.website
  let emailPair : Option String × Option String :=
    match jsStr lead.email with
    | some e => (some e, none)
    | none =>
      match website with
      | some w =>
        match extractDomain w with
        | some d => if d.isEmpty then (none, none)
                    else (some ("info@" ++ d), some "estimated")
        | none => (none, none)
      | none => (none, none)
  { phone := phone1, email := emailPair.1, website := website,
    emailType := emailPair.2,
    hasContact := jsTruthy phone1 || jsTruthy emailPair.1 || jsTruthy website }

/-- The enrichment block attached to a record by enrichLeads. -/
structure EnrichmentBlock where
  contactInfo : ContactInfo
  reviewTrend : TrendResult
  businessSize : SizeResult
  responseRate : RateResult
  negativeReviewKeywords : List (String × Nat)
  lastNegativeReview : Option LastNegInfo
  deriving DecidableEq

/-- An enriched record: the base record plus the enrichment block.  The
block is an Option because the scorer reads it through lead.enrichment?. -/
structure EnrichedLead where
  lead : Lead
  enrichment : Option EnrichmentBlock
  deriving DecidableEq

/-- Enrichment of one record, threading the TypeError of the two
extractors that reject an absent review list. -/
def enrichOne (now : Int) (lead : Lead) : Except String EnrichedLead := do
  let kw ← extractNegativeKeywords lead.reviews
  let last ← getLastNegativeReviewDate now lead.reviews
  Except.ok
    { lead := lead,
      enrichment := some
        { contactInfo := enrichContactInfo lead,
          reviewTrend := calculateReviewTrend lead.reviews,
          businessSize := estimateBusinessSize lead,
          responseRate := calculateResponseRate lead.reviews,
          negativeReviewKeywords := kw,
          lastNegativeReview := last } }

/-- enrichLeads of enricher.js: map enrichment over the batch. -/
def enrichLeads (now : Int) (leads : List Lead) : Except String (List EnrichedLead) :=
  leads.mapM (enrichOne now)

/-- The raw result shape of the external sentiment library. -/
structure LibResult where
  score : Int
  comparative : Rat
  positive : List String
  negative : List String

/-- analyzeSentiment of review-scraper.js, the Sentiment Lexicon Adapter,
parameterized by the external lexicon library: empty text short-circuits
to a neutral partial result, otherwise the label follows the sign of the
library score. -/
def analyzeSentiment (lib : String → LibResult) (text : String) : SentimentData :=
  if text.isEmpty then
    { score := 0, comparative := none, label := "neutral",
      positive := none, negative := none }
  else
    let r := lib text
    { score := r.score, comparative := some r.comparative,
      label := if 0 < r.score then "positive"
               else if r.score < 0 then "negative" else "neutral",
      positive := some r.positive, negative := some r.negative }

/-- The negativity test the specification prescribes for keyword
extraction: rating at most 2, or a negative label freshly recomputed from
the text through the Sentiment Lexicon Adapter. -/
def specFreshNegative (lib : String → LibResult) (r : Review) : Bool :=
  decide (r.rating ≤ 2) || ((analyzeSentiment lib r.text).label == "negative")

/-- Occurrence counting of a pattern in a text, the reading of the
specification sentence that keyword extraction counts substring
occurrences across the negative reviews. -/
def countOccur : List Char → List Char → Nat
  | [], _ => 0
  | c :: t, pat => (if pat.isPrefixOf (c :: t) then 1 else 0) + countOccur t pat

/-- countRecentNegatives of scorer.js: reviews within the last thirty
days (30 * 24 * 60 * 60 * 1000 milliseconds) rated at most 2; absent or
empty review lists count zero. -/
def countRecentNegatives (now : Int) (reviews : Option (List Review)) : Nat :=
  match reviews with
  | none => 0
  | some rs =>
    if rs.length = 0 then 0
    else (rs.filter (fun r =>
      decide (now - 2592000000 ≤ r.date) && decide (r.rating ≤ 2))).length

/-- Points of the recent-negatives component: full 40 from five, rounded
60 percent from three, rounded 30 percent from one. -/
def recentNegPoints (c : Nat) : Nat :=
  if 5 ≤ c then 40
  else if 3 ≤ c then (jsRound ((40 : Rat) * (6/10))).toNat
  else if 1 ≤ c then (jsRound ((40 : Rat) * (3/10))).toNat
  else 0

/-- Points of the low-response-rate component: full 30 under 0.2, rounded
half under 0.5. -/
def lowRespPoints (rate : Rat) : Nat :=
  if rate < 1/5 then 30
  else if rate < 1/2 then (jsRound ((30 : Rat) * (1/2))).toNat
  else 0

/-- Points of the business-size component by totalReviews. -/
def bizSizePoints (n : Nat) : Nat :=
  if 100 < n then 20
  else if 50 < n then (jsRound ((20 : Rat) * (7/10))).toNat
  else if 20 < n then (jsRound ((20 : Rat) * (4/10))).toNat
  else 0

/-- Points of the rating-decline component from the enrichment trend
fields. -/
def ratingDeclinePoints (trend trendScore : Option String) : Nat :=
  if trend == some "worsening" || trendScore == some "critical" then 10
  else if trendScore == some "high" then (jsRound ((10 : Rat) * (1/2))).toNat
  else 0

/-- getPriorityLevel of scorer.js. -/
def getPriorityLevel (score : Nat) : String :=
  if 80 ≤ score then "critical"
  else if 60 ≤ score then "high"
  else if 40 ≤ score then "medium"
  else "low"

/-- The scoringDetails mapping: one optional entry per factor, present
exactly when the factor contributed a branch of its rubric. -/
structure ScoringDetails where
  recentNegatives : Option (Nat × Nat)
  lowResponseRate : Option (Rat × Nat)
  businessSize : Option (Nat × Nat)
  ratingDecline : Option (Option String × Option String × Nat)
  deriving DecidableEq

/-- Result of calculateLeadScore: capped score, details, priority. -/
structure ScoreResult where
  score : Nat
  details : ScoringDetails
  priority : String
  deriving DecidableEq

/-- calculateLeadScore of scorer.js: the four components are evaluated
independently and summed; the returned score is capped at 100 while the
priority is derived from the uncapped sum. -/
def calculateLeadScore (now : Int) (l : EnrichedLead) : ScoreResult :=
  let c := countRecentNegatives now l.lead.reviews
  let p1 := recentNegPoints c
  let rate : Rat :=
    match l.enrichment with
    | some e => e.responseRate.rate
    | none => 0
  let p2 := lowRespPoints rate
  let n := l.lead.totalReviews
  let p3 := bizSizePoints n
  let tr := l.enrichment.map (fun e => e.reviewTrend.trend)
  let ts := l.enrichment.bind (fun e => e.reviewTrend.trendScore)
  let p4 := ratingDeclinePoints tr ts
  let total := p1 + p2 + p3 + p4
  { score := min total 100,
    details :=
      { recentNegatives := if 1 ≤ c then some (c, p1) else none,
        lowResponseRate := if rate < 1/2 then some (rate, p2) else none,
        businessSize := if 20 < n then some (n, p3) else none,
        ratingDecline :=
          if tr == some "worsening" || ts == some "critical" || ts == some "high"
          then some (tr, ts, p4) else none },
    priority := getPriorityLevel total }

/-- A scored record: the enriched record plus score, details, priority. -/
structure ScoredLead where
  enriched : EnrichedLead
  score : Nat
  scoringDetails : ScoringDetails
  priority : String
  deriving DecidableEq

/-- Scoring of one record inside scoreAllLeads. -/
def scoreOne (now : Int) (l : EnrichedLead) : ScoredLead :=
  let r := calculateLeadScore now l
  { enriched := l, score := r.score, scoringDetails := r.details,
    priority := r.priority }

/-- scoreAllLeads of scorer.js: score every record, then stable-sort the
batch by score descending. -/
def scoreAllLeads (now : Int) (leads : List EnrichedLead) : List ScoredLead :=
  sortDescBy (fun s => (s.score : Int)) (leads.map (scoreOne now))

/-- Constructor helper for concrete test reviews. -/
def mkReview (rating : Int) (text : String) (date : Int)
    (sent : Option SentimentData) : Review :=
  { rating := rating, text := text, date := date, sentiment := sent,
    ownerResponse := false, response := false }

/-- A record with an empty review list and totalReviews 5, the scenario
input of the scoring spec. -/
def leadC2 : Lead :=
  { id := "c2", name := "Empty Cafe", rating := 4, category := "Cafe",
    phone := none, email := none, website := none, address := none,
    totalReviews := 5, reviews := some [] }

/-- The enrichment of leadC2. -/
def enrichedC2 : EnrichedLead :=
  { lead := leadC2,
    enrichment := some
      { contactInfo := enrichContactInfo leadC2,
        reviewTrend := calculateReviewTrend (some []),
        businessSize := estimateBusinessSize leadC2,
        responseRate := calculateResponseRate (some []),
        negativeReviewKeywords := [],
        lastNegativeReview := none } }

/-- Six reviews none of which is rated at most 2, with a worsening
rating trajectory: the newer half averages 3, the older half 5. -/
def rsC4 : List Review :=
  [mkReview 3 "fine" 600 none, mkReview 3 "ok" 500 none, mkReview 3 "meh" 400 none,
   mkReview 5 "great" 300 none, mkReview 5 "good" 200 none, mkReview 5 "nice" 100 none]

/-- A record carrying rsC4. -/
def leadC4 : Lead :=
  { id := "c4", name := "Sliding Diner", rating := 4, category := "Diner",
    phone := none, email := none, website := none, address := none,
    totalReviews := 0, reviews := some rsC4 }

/-- The enrichment of leadC4. -/
def enrichedC4 : EnrichedLead :=
  { lead := leadC4,
    enrichment := some
      { contactInfo := enrichContactInfo leadC4,
        reviewTrend := calculateReviewTrend (some rsC4),
        businessSize := estimateBusinessSize leadC4,
        responseRate := calculateResponseRate (some rsC4),
        negativeReviewKeywords := [],
        lastNegativeReview := none } }

/-- A stored negative sentiment block. -/
def sentNegData : SentimentData :=
  { score := -3, comparative := none, label := "negative",
    positive := none, negative := none }

/-- A five-star review whose text mentions a lexicon term and whose
stored sentiment field says negative. -/
def revStoredNeg : Review := mkReview 5 "slow" 0 (some sentNegData)

/-- The same review with the stored sentiment field removed. -/
def revNoStored : Review := mkReview 5 "slow" 0 none

/-- A one-star review whose text holds two occurrences of one term. -/
def revSlowTwice : Review := mkReview 1 "slow slow" 0 none

/-- A one-star review mentioning the second lexicon term. -/
def revRudeOnce : Review := mkReview 1 "rude" 0 none

/-- A one-star review mentioning the first lexicon term. -/
def revSlowOnce : Review := mkReview 1 "slow" 0 none

/-- A record with no phone, email or website, whose address holds a
phone-shaped digit pattern. -/
def leadC9 : Lead :=
  { id := "c9", name := "Hidden Garage", rating := 2, category := "Auto",
    phone := none, email := none, website := none,
    address := some "555-123-4567",
    totalReviews := 0, reviews := some [] }

/-- A record carrying explicit phone, email and website. -/
def leadC9w : Lead :=
  { id := "c9w", name := "Visible Shop", rating := 3, category := "Shop",
    phone := some "111-222-3333", email := some "a@b.c",
    website := some "https://www.example.com/x", address := none,
    totalReviews := 0, reviews := none }

/-- A record with a website but no email, for the synthesis branch. -/
def leadC9e : Lead :=
  { id := "c9e", name := "Web Only", rating := 3, category := "Shop",
    phone := none, email := none,
    website := some "https://www.shop.com/a", address := none,
    totalReviews := 0, reviews := none }

/-- Five reviews with a declining rating trajectory, for exercising the
trend extractor on a sufficient list. -/
def rsC8 : List Review :=
  [mkReview 1 "a" 500 none, mkReview 2 "b" 400 none, mkReview 1 "c" 300 none,
   mkReview 5 "d" 200 none, mkReview 5 "e" 100 none]

/-- A record whose review list is present, for the enrichment batch. -/
def leadC10 : Lead :=
  { id := "c10", name := "Batch One", rating := 2, category := "Cafe",
    phone := none, email := none, website := none, address := none,
    totalReviews := 30, reviews := some [mkReview 1 "slow waits" 50 none] }

/-- A one-element batch for the enrichment length/order witness. -/
def leadsC10 : List Lead := [leadC10]

/-- Reviews for the negative-recency witness: none rated at most 2. -/
def rsC4w : List Review := [mkReview 3 "okay" 10 none]

/-- Reviews for the keyword-extraction witness. -/
def rsC5w : List Review := [mkReview 1 "very slow and rude, so slow" 0 none]

unseal Rat.add Rat.sub Rat.mul Rat.inv Rat.ofScientific

theorem insDescBy_perm {α : Type} (f : α → Int) (x : α) (l : List α) :
    (insDescBy f x l).Perm (x :: l) := by
  induction l with
  | nil => simp [insDescBy]
  | cons y ys ih =>
    simp only [insDescBy]
    split
    · exact (ih.cons y).trans (List.Perm.swap x y ys)
    · exact List.Perm.refl _

theorem mem_insDescBy {α : Type} (f : α → Int) (x z : α) (l : List α) :
    z ∈ insDescBy f x l ↔ z = x ∨ z ∈ l := by
  have h := (insDescBy_perm f x l).mem_iff (a := z)
  simpa using h

theorem insDescBy_sorted {α : Type} (f : α → Int) (x : α) (l : List α)
    (h : l.Pairwise (fun a b => f b ≤ f a)) :
    (insDescBy f x l).Pairwise (fun a b => f b ≤ f a) := by
  induction l with
  | nil => simp [insDescBy]
  | cons y ys ih =>
    rw [List.pairwise_cons] at h
    simp only [insDescBy]
    split
    · refine List.pairwise_cons.mpr ⟨?_, ih h.2⟩
      intro z hz
      rcases (mem_insDescBy f x z ys).mp hz with hzx | hzys
      · subst hzx; assumption
      · exact h.1 z hzys
    · rename_i hxy
      refine List.pairwise_cons.mpr ⟨?_, List.pairwise_cons.mpr h⟩
      intro z hz
      rcases List.mem_cons.mp hz with hzy | hzys
      · subst hzy; omega
      · exact le_trans (h.1 z hzys) (by omega)

theorem insDescBy_filter {α : Type} (f : α → Int) (k : Int) (x : α) (l : List α)
    (h : l.Pairwise (fun a b => f b ≤ f a)) :
    (insDescBy f x l).filter (fun a => f a == k) =
      if f x == k then l.filter (fun a => f a == k) ++ [x]
      else l.filter (fun a => f a == k) := by
  induction l with
  | nil => by_cases hk : f x == k <;> simp [insDescBy, List.filter, hk]
  | cons y ys ih =>
    rw [List.pairwise_cons] at h
    simp only [insDescBy]
    split
    · rename_i hxy
      have ihys := ih h.2
      by_cases hk : f x == k
      · simp only [hk, if_pos] at ihys ⊢
        by_cases hyk : f y == k <;>
          simp [List.filter_cons, hyk, ihys]
      · simp only [hk] at ihys ⊢
        by_cases hyk : f y == k <;>
          simp [List.filter_cons, hyk, ihys]
    · rename_i hxy
      push_neg at hxy
      by_cases hk : f x == k
      · have hfk : f x = k := by simpa using hk
        have hnone : ∀ z ∈ y :: ys, ¬ (f z == k) = true := by
          intro z hz
          rcases List.mem_cons.mp hz with hzy | hzys
          · subst hzy; simp; omega
          · have := h.1 z hzys
            simp; omega
        have hfilter : (y :: ys).filter (fun a => f a == k) = [] := by
          exact List.filter_eq_nil_iff.mpr hnone
        simp [hk, List.filter_cons, hfilter,
          show ¬ (f y == k) = true from hnone y (by simp)]
      · simp [hk, List.filter_cons]

theorem sortDescBy_aux_perm {α : Type} (f : α → Int) (l acc : List α) :
    (l.foldl (fun a x => insDescBy f x a) acc).Perm (acc ++ l) := by
  induction l generalizing acc with
  | nil => simp
  | cons x xs ih =>
    simp only [List.foldl_cons]
    refine (ih (insDescBy f x acc)).trans ?_
    refine (List.Perm.append_right xs (insDescBy_perm f x acc)).trans ?_
    exact List.perm_middle.symm

theorem sortDescBy_perm {α : Type} (f : α → Int) (l : List α) :
    (sortDescBy f l).Perm l := by
  simpa [sortDescBy] using sortDescBy_aux_perm f l []

theorem sortDescBy_aux_sorted {α : Type} (f : α → Int) (l acc : List α)
    (h : acc.Pairwise (fun a b => f b ≤ f a)) :
    (l.foldl (fun a x => insDescBy f x a) acc).Pairwise (fun a b => f b ≤ f a) := by
  induction l generalizing acc with
  | nil => simpa using h
  | cons x xs ih =>
    simp only [List.foldl_cons]
    exact ih _ (insDescBy_sorted f x acc h)

theorem sortDescBy_sorted {α : Type} (f : α → Int) (l : List α) :
    (sortDescBy f l).Pairwise (fun a b => f b ≤ f a) := by
  simpa [sortDescBy] using sortDescBy_aux_sorted f l [] (by simp)

theorem sortDescBy_aux_filter {α : Type} (f : α → Int) (k : Int) (l acc : List α)
    (h : acc.Pairwise (fun a b => f b ≤ f a)) :
    (l.foldl (fun a x => insDescBy f x a) acc).filter (fun a => f a == k) =
      acc.filter (fun a => f a == k) ++ l.filter (fun a => f a == k) := by
  induction l generalizing acc with
  | nil => simp
  | cons x xs ih =>
    simp only [List.foldl_cons]
    rw [ih _ (insDescBy_sorted f x acc h), insDescBy_filter f k x acc h]
    by_cases hk : f x == k <;> simp [hk, List.filter_cons]

theorem sortDescBy_filter {α : Type} (f : α → Int) (k : Int) (l : List α) :
    (sortDescBy f l).filter (fun a => f a == k) = l.filter (fun a => f a == k) := by
  simpa [sortDescBy] using sortDescBy_aux_filter f k l [] (by simp)

theorem recentNegPoints_le (c : Nat) : recentNegPoints c ≤ 40 := by
  unfold recentNegPoints
  split_ifs <;> decide

theorem lowRespPoints_le (rate : Rat) : lowRespPoints rate ≤ 30 := by
  unfold lowRespPoints
  split_ifs <;> decide

theorem bizSizePoints_le (n : Nat) : bizSizePoints n ≤ 20 := by
  unfold bizSizePoints
  split_ifs <;> decide

theorem ratingDeclinePoints_le (t ts : Option String) : ratingDeclinePoints t ts ≤ 10 := by
  unfold ratingDeclinePoints
  split_ifs <;> decide

theorem getPriorityLevel_spec (s : Nat) :
    (getPriorityLevel s = "critical" ↔ 80 ≤ s) ∧
    (getPriorityLevel s = "high" ↔ 60 ≤ s ∧ s < 80) ∧
    (getPriorityLevel s = "medium" ↔ 40 ≤ s ∧ s < 60) ∧
    (getPriorityLevel s = "low" ↔ s < 40) := by
  unfold getPriorityLevel
  split_ifs <;> refine ⟨?_, ?_, ?_, ?_⟩ <;> simp_all <;> omega

/-- C6: for every enriched record the computed score is an integer in
[0, 100] — the four components are bounded by their weights 40, 30, 20
and 10, so the sum never exceeds 100 and the cap at 100 is never
exceeded — and the priority derived from the final (capped) score is
critical iff the score is at least 80, high iff it is in [60, 80),
medium iff it is in [40, 60), and low otherwise. -/
theorem claim_C6_score_range_and_priority (now : Int) (l : EnrichedLead) :
    (calculateLeadScore now l).score ≤ 100 ∧
    ((calculateLeadScore now l).priority = "critical" ↔
      80 ≤ (calculateLeadScore now l).score) ∧
    ((calculateLeadScore now l).priority = "high" ↔
      60 ≤ (calculateLeadScore now l).score ∧ (calculateLeadScore now l).score < 80) ∧
    ((calculateLeadScore now l).priority = "medium" ↔
      40 ≤ (calculateLeadScore now l).score ∧ (calculateLeadScore now l).score < 60) ∧
    ((calculateLeadScore now l).priority = "low" ↔
      (calculateLeadScore now l).score < 40) := by
  have h1 := recentNegPoints_le (countRecentNegatives now l.lead.reviews)
  have h2 := lowRespPoints_le
    (match l.enrichment with
     | some e => e.responseRate.rate
     | none => 0)
  have h3 := bizSizePoints_le l.lead.totalReviews
  have h4 := ratingDeclinePoints_le (l.enrichment.map (fun e => e.reviewTrend.trend))
    (l.enrichment.bind (fun e => e.reviewTrend.trendScore))
  simp only [calculateLeadScore]
  have hsum : recentNegPoints (countRecentNegatives now l.lead.reviews) +
      lowRespPoints
        (match l.enrichment with
         | some e => e.responseRate.rate
         | none => 0) +
      bizSizePoints l.lead.totalReviews +
      ratingDeclinePoints (l.enrichment.map (fun e => e.reviewTrend.trend))
        (l.enrichment.bind (fun e => e.reviewTrend.trendScore)) ≤ 100 := by
    omega
  rw [Nat.min_eq_left hsum]
  exact ⟨hsum, getPriorityLevel_spec _⟩

theorem natBeqIntBeq (a b : Nat) : (a == b) = ((a : Int) == (b : Int)) := by
  by_cases h : a = b
  · simp [h]
  · have hi : ¬ ((a : Int) = (b : Int)) := by exact_mod_cast h
    simp [h, hi]

/-- C7: scoreAllLeads applies the scoring rubric to every record (the
output is a permutation of the rubric mapped over the input, which is
itself untouched), sorts by score in descending order, and the sort is
stable: the records holding any fixed score appear in the output in
their relative input order. -/
theorem claim_C7_scoreAllLeads_sorted_stable (now : Int) (leads : List EnrichedLead) :
    (scoreAllLeads now leads).Perm (leads.map (scoreOne now)) ∧
    (scoreAllLeads now leads).Pairwise (fun a b => b.score ≤ a.score) ∧
    ∀ c : Nat, (scoreAllLeads now leads).filter (fun s => s.score == c) =
      (leads.map (scoreOne now)).filter (fun s => s.score == c) := by
  refine ⟨sortDescBy_perm _ _, ?_, ?_⟩
  · have h := sortDescBy_sorted (fun s : ScoredLead => (s.score : Int))
      (leads.map (scoreOne now))
    exact h.imp (fun {a b} hab => by exact_mod_cast hab)
  · intro c
    have hcong : ∀ (ls : List ScoredLead),
        ls.filter (fun s => s.score == c) =
          ls.filter (fun s => ((s.score : Int) == (c : Int))) := by
      intro ls
      apply List.filter_congr
      intro x _
      exact natBeqIntBeq x.score c
    rw [hcong, hcong]
    exact sortDescBy_filter (fun s : ScoredLead => (s.score : Int)) (c : Int)
      (leads.map (scoreOne now))

/-- C2 (amended): for a record with an empty review list and
totalReviews 5, the recent-negatives, business-size and rating-decline
components award 0 points, but the low-response-rate component awards
its full 30 points because the rate 0 is below the 0.2 threshold; the
final score is 30 and the priority is low. -/
theorem claim_C2_empty_reviews_score (now now2 : Int) (l : Lead) (e : EnrichedLead)
    (hrev : l.reviews = some []) (htot : l.totalReviews = 5)
    (henr : enrichOne now l = Except.ok e) :
    (calculateLeadScore now2 e).score = 30 ∧
    (calculateLeadScore now2 e).priority = "low" ∧
    (calculateLeadScore now2 e).details.recentNegatives = none ∧
    (calculateLeadScore now2 e).details.lowResponseRate = some (0, 30) ∧
    (calculateLeadScore now2 e).details.businessSize = none ∧
    (calculateLeadScore now2 e).details.ratingDecline = none := by
  have hexp : enrichOne now l = Except.ok
      { lead := l,
        enrichment := some
          { contactInfo := enrichContactInfo l,
            reviewTrend := calculateReviewTrend (some []),
            businessSize := estimateBusinessSize l,
            responseRate := calculateResponseRate (some []),
            negativeReviewKeywords := [],
            lastNegativeReview := none } } := by
    simp only [enrichOne, hrev]
    rfl
  rw [hexp] at henr
  injection henr with h
  subst h
  simp only [calculateLeadScore, hrev, htot, countRecentNegatives,
    calculateResponseRate, zeroRate, calculateReviewTrend, insufficientTrend,
    recentNegPoints, lowRespPoints, bizSizePoints, ratingDeclinePoints,
    getPriorityLevel]
  have hs : ¬ ("insufficient_data" : String) = "worsening" := by decide
  norm_num [hs]

/-- C2 counterexample: for the record leadC2 with an empty review list
and totalReviews 5, the pipeline awards 30 points (all from the
low-response-rate component), not the score 0 the claim requires; the
priority is still low. -/
theorem claim_C2_counterexample :
    leadC2.reviews = some [] ∧ leadC2.totalReviews = 5 ∧
    (enrichOne 0 leadC2).toOption = some enrichedC2 ∧
    (calculateLeadScore 0 enrichedC2).score = 30 ∧
    (calculateLeadScore 0 enrichedC2).priority = "low" ∧
    (calculateLeadScore 0 enrichedC2).details.lowResponseRate = some (0, 30) := by
  refine ⟨rfl, rfl, ?_, ?_⟩
  · decide
  · decide

/-- C2 witness: the amended theorem applied at leadC2. -/
theorem claim_C2_witness :
    leadC2.reviews = some [] ∧ leadC2.totalReviews = 5 ∧
    (calculateLeadScore 0 enrichedC2).score = 30 ∧
    (calculateLeadScore 0 enrichedC2).priority = "low" := by
  have h := claim_C2_empty_reviews_score 0 0 leadC2 enrichedC2 rfl rfl rfl
  exact ⟨rfl, rfl, h.1, h.2.1⟩

/-- C3 (amended): every signal extractor accepts an empty review list
and returns a well-defined insufficient-data or empty result, and the
review-trend and response-rate extractors also accept an absent list;
but negative-keyword extraction and last-negative-review recency raise a
TypeError on an absent (missing/null) review list instead of returning a
result.  Business size never reads the review list at all. -/
theorem claim_C3_empty_and_absent_lists (now : Int) :
    calculateReviewTrend none = insufficientTrend ∧
    calculateReviewTrend (some []) = insufficientTrend ∧
    calculateResponseRate none = zeroRate ∧
    calculateResponseRate (some []) = zeroRate ∧
    extractNegativeKeywords (some []) = Except.ok [] ∧
    getLastNegativeReviewDate now (some []) = Except.ok none ∧
    (∀ l : Lead, estimateBusinessSize l = estimateBusinessSize { l with reviews := none }) ∧
    (extractNegativeKeywords none).isOk = false ∧
    (getLastNegativeReviewDate now none).isOk = false := by
  refine ⟨rfl, rfl, rfl, rfl, rfl, rfl, fun l => rfl, rfl, rfl⟩

/-- C3 counterexample: on an absent review list, negative-keyword
extraction and last-negative-review recency do not return an
insufficient-data result: both raise a TypeError, because the source
calls reviews.filter without a guard. -/
theorem claim_C3_counterexample :
    extractNegativeKeywords none =
      Except.error "TypeError: Cannot read properties of undefined (reading filter)" ∧
    getLastNegativeReviewDate 0 none =
      Except.error "TypeError: Cannot read properties of undefined (reading filter)" :=
  ⟨rfl, rfl⟩

/-- C4 (amended): for a record none of whose reviews is rated at most 2,
the lastNegativeReview block is absent (null) and the recent-negatives
component contributes 0 points; the rating-decline component, however,
is computed from the rating trend and can still contribute. -/
theorem claim_C4_no_negatives (now : Int) (rs : List Review)
    (h : ∀ r ∈ rs, 2 < r.rating) :
    getLastNegativeReviewDate now (some rs) = Except.ok none ∧
    countRecentNegatives now (some rs) = 0 ∧
    recentNegPoints (countRecentNegatives now (some rs)) = 0 := by
  have hfil : rs.filter (fun r => decide (r.rating ≤ 2)) = [] := by
    refine List.filter_eq_nil_iff.mpr ?_
    intro r hr
    have := h r hr
    simp only [decide_eq_true_eq]
    omega
  have hfil2 : rs.filter (fun r =>
      decide (now - 2592000000 ≤ r.date) && decide (r.rating ≤ 2)) = [] := by
    refine List.filter_eq_nil_iff.mpr ?_
    intro r hr
    have := h r hr
    simp only [Bool.and_eq_true, decide_eq_true_eq, not_and]
    intro
    omega
  have hcount : countRecentNegatives now (some rs) = 0 := by
    simp only [countRecentNegatives, hfil2]
    split <;> rfl
  refine ⟨?_, hcount, by rw [hcount]; decide⟩
  simp only [getLastNegativeReviewDate, hfil]
  rfl

/-- C4 counterexample: the record leadC4 has six reviews, none rated at
most 2, so lastNegativeReview is absent and recent negatives score 0; but
its rating trend worsens (newer half mean 3 against older half mean 5),
so the rating-decline component contributes its full 10 points, refuting
the claim that it contributes 0. -/
theorem claim_C4_counterexample :
    (∀ r ∈ rsC4, 2 < r.rating) ∧
    (enrichOne 0 leadC4).toOption = some enrichedC4 ∧
    (enrichedC4.enrichment.map (fun e => e.lastNegativeReview)) = some none ∧
    (calculateLeadScore 0 enrichedC4).details.recentNegatives = none ∧
    (calculateLeadScore 0 enrichedC4).details.ratingDecline =
      some (some "worsening", some "critical", 10) ∧
    (calculateLeadScore 0 enrichedC4).score = 40 := by
  refine ⟨by decide, by decide, by decide, by decide, by decide, by decide⟩

/-- C4 witness: the amended theorem applied at the concrete review list
rsC4w, which holds one review rated 3. -/
theorem claim_C4_witness :
    (∀ r ∈ rsC4w, 2 < r.rating) ∧
    getLastNegativeReviewDate 0 (some rsC4w) = Except.ok none ∧
    countRecentNegatives 0 (some rsC4w) = 0 :=
  ⟨by decide, (claim_C4_no_negatives 0 rsC4w (by decide)).1,
    (claim_C4_no_negatives 0 rsC4w (by decide)).2.1⟩

/-- C1 (amended): for every review list given to negative-keyword
extraction, a review is classified as negative iff its rating is at most
2 or the sentiment label stored on the review equals negative; the
classification reads the pre-existing sentiment field and is independent
of the review text, so no sentiment is recomputed through the Sentiment
Lexicon Adapter. -/
theorem claim_C1_stored_sentiment (rs : List Review) (r : Review) (t : String) :
    extractNegativeKeywords (some rs) =
      Except.ok ((sortDescBy (fun p => (p.2 : Int))
        (keywordCounts (rs.filter isNegKW))).take 5) ∧
    (isNegKW r = true ↔
      r.rating ≤ 2 ∨ ∃ s, r.sentiment = some s ∧ s.label = "negative") ∧
    isNegKW { r with text := t } = isNegKW r := by
  refine ⟨?_, ?_, rfl⟩
  · by_cases hne : (rs.filter isNegKW).length = 0
    · have hnil : rs.filter isNegKW = [] := List.length_eq_zero.mp hne
      simp [extractNegativeKeywords, hnil, keywordCounts, sortDescBy]
    · simp [extractNegativeKeywords, hne]
  · cases hs : r.sentiment with
    | none => simp [isNegKW, hs, decide_eq_true_eq]
    | some s => simp [isNegKW, hs, decide_eq_true_eq, beq_iff_eq]

/-- C1 counterexample: two reviews with identical rating 5 and identical
text differing only in the stored sentiment field are classified
differently by keyword extraction (the stored-negative one contributes
its keyword, the other yields an empty result), while any freshly
recomputed sentiment label agrees on both; so the classification relies
on the pre-existing sentiment field, refuting the claim. -/
theorem claim_C1_counterexample :
    revNoStored.text = revStoredNeg.text ∧
    revNoStored.rating = revStoredNeg.rating ∧
    ¬ (revStoredNeg.rating ≤ 2) ∧
    (extractNegativeKeywords (some [revStoredNeg])).toOption = some [("slow", 1)] ∧
    (extractNegativeKeywords (some [revNoStored])).toOption = some [] ∧
    (∀ lib : String → LibResult,
      specFreshNegative lib revStoredNeg = specFreshNegative lib revNoStored) := by
  exact ⟨rfl, rfl, by decide, by decide, by decide, fun lib => rfl⟩

/-- C8: with fewer than five reviews (or an absent list) the trend is
insufficient_data with change 0; with at least five, the reviews are
sorted by date descending (a stable permutation), split at the floor of
half the count, and the result reports the rounded difference of the
half means, the trend category at thresholds -0.3 and 0.3 on the raw
difference, and the severity tier at -0.5 and -0.3. -/
theorem claim_C8_review_trend (rs : List Review) (h : 5 ≤ rs.length) :
    (∀ rs2 : List Review, rs2.length < 5 →
      calculateReviewTrend (some rs2) = insufficientTrend) ∧
    calculateReviewTrend none = insufficientTrend ∧
    (sortDescBy (fun r => r.date) rs).Perm rs ∧
    (sortDescBy (fun r => r.date) rs).Pairwise (fun a b => b.date ≤ a.date) ∧
    ((sortDescBy (fun r => r.date) rs).take (rs.length / 2)).length = rs.length / 2 ∧
    ((sortDescBy (fun r => r.date) rs).drop (rs.length / 2)).length =
      rs.length - rs.length / 2 ∧
    calculateReviewTrend (some rs) =
      (let sorted := sortDescBy (fun r => r.date) rs
       let mid := rs.length / 2
       let c := averageRating (sorted.take mid) - averageRating (sorted.drop mid)
       { trend := if c < -(3/10) then "worsening"
                  else if (3/10) < c then "improving" else "stable",
         change := roundTo2 c,
         recentAvg := some (roundTo2 (averageRating (sorted.take mid))),
         olderAvg := some (roundTo2 (averageRating (sorted.drop mid))),
         trendScore := some (if c < -(1/2) then "critical"
                             else if c < -(3/10) then "high" else "moderate") }) := by
  have hlen : (sortDescBy (fun r : Review => r.date) rs).length = rs.length :=
    (sortDescBy_perm _ _).length_eq
  refine ⟨?_, rfl, sortDescBy_perm _ _, sortDescBy_sorted _ _, ?_, ?_, ?_⟩
  · intro rs2 h2
    simp [calculateReviewTrend, h2]
  · rw [List.length_take, hlen]
    exact Nat.min_eq_left (Nat.div_le_self _ _)
  · rw [List.length_drop, hlen]
  · simp only [calculateReviewTrend, hlen]
    rw [if_neg (by omega)]

/-- C8 witness: the trend extractor applied to the five declining
reviews of rsC8, whose newer-half mean 3/2 sits 13/6 below the
older-half mean 11/3. -/
theorem claim_C8_witness :
    5 ≤ rsC8.length ∧
    (calculateReviewTrend (some rsC8)).trend = "worsening" ∧
    (calculateReviewTrend (some rsC8)).trendScore = some "critical" := by
  have h := claim_C8_review_trend rsC8 (by decide)
  refine ⟨by decide, ?_, ?_⟩
  · rw [h.2.2.2.2.2.2]
    decide
  · rw [h.2.2.2.2.2.2]
    decide

theorem enrichOne_ok (now : Int) (l : Lead) (h : l.reviews.isSome = true) :
    ∃ e : EnrichedLead, enrichOne now l = Except.ok e ∧
      e.lead = l ∧ e.enrichment.isSome = true := by
  obtain ⟨rs, hrs⟩ := Option.isSome_iff_exists.mp h
  have h1 : ∃ kw, extractNegativeKeywords (some rs) = Except.ok kw := by
    by_cases hlen : (rs.filter isNegKW).length = 0 <;>
      simp [extractNegativeKeywords, hlen]
  have h2 : ∃ last, getLastNegativeReviewDate now (some rs) = Except.ok last := by
    cases hg : getLastNegativeReviewDate now (some rs) with
    | ok v => exact ⟨v, rfl⟩
    | error e =>
      exfalso
      revert hg
      cases hm : sortDescBy (fun r => r.date)
          (rs.filter (fun r => decide (r.rating ≤ 2))) with
      | nil => simp [getLastNegativeReviewDate, hm]
      | cons a t => simp [getLastNegativeReviewDate, hm]
  obtain ⟨kw, hkw⟩ := h1
  obtain ⟨last, hlast⟩ := h2
  refine ⟨{ lead := l,
            enrichment := some
              { contactInfo := enrichContactInfo l,
                reviewTrend := calculateReviewTrend l.reviews,
                businessSize := estimateBusinessSize l,
                responseRate := calculateResponseRate l.reviews,
                negativeReviewKeywords := kw,
                lastNegativeReview := last } }, ?_, rfl, rfl⟩
  simp only [enrichOne, hrs]
  rw [hkw, hlast]
  rfl

/-- C10: for every input batch whose records all carry a review list,
enrichLeads returns a same-length list in the same order whose element
at each position holds the corresponding input record unchanged as its
base, plus the single additional enrichment field. -/
theorem claim_C10_enrich_preserves (now : Int) (leads : List Lead)
    (h : ∀ l ∈ leads, l.reviews.isSome = true) :
    ∃ out, enrichLeads now leads = Except.ok out ∧
      out.map EnrichedLead.lead = leads ∧
      ∀ e ∈ out, e.enrichment.isSome = true := by
  induction leads with
  | nil => exact ⟨[], rfl, rfl, by simp⟩
  | cons x xs ih =>
    obtain ⟨e, he, hel, hes⟩ := enrichOne_ok now x (h x (by simp))
    obtain ⟨out, ho, hom, hoe⟩ := ih (fun l hl => h l (by simp [hl]))
    have ho2 : xs.mapM (enrichOne now) = Except.ok out := ho
    refine ⟨e :: out, ?_, ?_, ?_⟩
    · show (x :: xs).mapM (enrichOne now) = Except.ok (e :: out)
      rw [List.mapM_cons, he, ho2]
      rfl
    · simp [hom, hel]
    · intro e2 he2
      rcases List.mem_cons.mp he2 with h2 | h2
      · subst h2; exact hes
      · exact hoe e2 h2

/-- C10 witness: the enrichment batch applied to the one-record batch
leadsC10, whose record carries a review list. -/
theorem claim_C10_witness :
    (∀ l ∈ leadsC10, l.reviews.isSome = true) ∧
    (∃ out, enrichLeads 0 leadsC10 = Except.ok out ∧
      out.map EnrichedLead.lead = leadsC10 ∧
      ∀ e ∈ out, e.enrichment.isSome = true) :=
  ⟨by decide, claim_C10_enrich_preserves 0 leadsC10 (by decide)⟩

theorem charM_consumes (p : Char → Bool) :
    ∀ u r, r ∈ charM p u → r.length + 1 ≤ u.length := by
  intro u r hr
  cases u with
  | nil => simp [charM] at hr
  | cons c t =>
    by_cases hp : p c
    · simp [charM, hp] at hr
      subst hr
      simp
    · simp [charM, hp] at hr

theorem optM_consumes (m : RexM) (k : Nat)
    (h : ∀ u r, r ∈ m u → r.length + k ≤ u.length) :
    ∀ u r, r ∈ optM m u → r.length + 0 ≤ u.length := by
  intro u r hr
  simp [optM] at hr
  rcases hr with hr | hr
  · have := h u r hr
    omega
  · subst hr
    omega

theorem seqM_consumes (m1 m2 : RexM) (k1 k2 : Nat)
    (h1 : ∀ u r, r ∈ m1 u → r.length + k1 ≤ u.length)
    (h2 : ∀ u r, r ∈ m2 u → r.length + k2 ≤ u.length) :
    ∀ u r, r ∈ seqM m1 m2 u → r.length + (k1 + k2) ≤ u.length := by
  intro u r hr
  simp [seqM, List.mem_flatMap] at hr
  obtain ⟨r1, hr1, hr2⟩ := hr
  have hb1 := h1 u r1 hr1
  have hb2 := h2 r1 r hr2
  omega

theorem digitsM_consumes (n : Nat) :
    ∀ u r, r ∈ digitsM n u → r.length + n ≤ u.length := by
  induction n with
  | zero =>
    intro u r hr
    simp [digitsM] at hr
    subst hr
    omega
  | succ n ih =>
    intro u r hr
    have := seqM_consumes (charM Char.isDigit) (digitsM n) 1 n
      (charM_consumes Char.isDigit) ih u r hr
    omega

theorem phoneM_consumes : ∀ u r, r ∈ phoneM u → r.length + 10 ≤ u.length := by
  have hq : ∀ u r, r ∈ phoneM u →
      r.length + (0 + (0 + (3 + (0 + (0 + (3 + (0 + 4))))))) ≤ u.length :=
    seqM_consumes _ _ 0 (0 + (3 + (0 + (0 + (3 + (0 + 4))))))
      (optM_consumes _ 0
        (seqM_consumes _ _ 0 0
          (optM_consumes _ 1 (charM_consumes _))
          (seqM_consumes _ _ 0 0
            (optM_consumes _ 1 (charM_consumes _))
            (optM_consumes _ 1 (charM_consumes _)))))
      (seqM_consumes _ _ 0 (3 + (0 + (0 + (3 + (0 + 4)))))
        (optM_consumes _ 1 (charM_consumes _))
        (seqM_consumes _ _ 3 (0 + (0 + (3 + (0 + 4)))) (digitsM_consumes 3)
          (seqM_consumes _ _ 0 (0 + (3 + (0 + 4)))
            (optM_consumes _ 1 (charM_consumes _))
            (seqM_consumes _ _ 0 (3 + (0 + 4))
              (optM_consumes _ 1 (charM_consumes _))
              (seqM_consumes _ _ 3 (0 + 4) (digitsM_consumes 3)
                (seqM_consumes _ _ 0 4
                  (optM_consumes _ 1 (charM_consumes _))
                  (digitsM_consumes 4)))))))
  intro u r hr
  have := hq u r hr
  omega

theorem phoneSearch_length (u : List Char) (l : List Char)
    (h : phoneSearch u = some l) : 10 ≤ l.length := by
  induction u with
  | nil =>
    cases hh : (phoneM []).head? with
    | some r =>
      exfalso
      have hr : r ∈ phoneM [] := List.mem_of_mem_head? hh
      have := phoneM_consumes [] r hr
      simp at this
    | none => simp [phoneSearch, hh] at h
  | cons c t ih =>
    cases hh : (phoneM (c :: t)).head? with
    | some r =>
      have hr := List.mem_of_mem_head? hh
      have hc := phoneM_consumes _ _ hr
      simp only [phoneSearch, hh] at h
      injection h with h
      rw [← h, List.length_take]
      simp only [List.length_cons] at hc ⊢
      omega
    | none =>
      simp only [phoneSearch, hh] at h
      exact ih h

theorem matchPhone_some_length (a : String) (s : String)
    (h : matchPhone a = some s) : 10 ≤ s.length := by
  unfold matchPhone at h
  rcases Option.map_eq_some'.mp h with ⟨l, hl, hs⟩
  have := phoneSearch_length _ _ hl
  rw [← hs]
  exact this

theorem jsStr_some_ne (x : Option String) (s : String)
    (h : jsStr x = some s) : ¬ s = "" := by
  rcases x with _ | t
  · simp [jsStr] at h
  · by_cases ht : t = ""
    · subst ht
      simp [jsStr] at h
    · unfold jsStr at h
      split at h
      · exact absurd h (by simp)
      · rename_i hne
        injection h with h
        subst h
        exact ht

theorem jsTruthy_eq_isSome (x : Option String)
    (hx : ∀ s, x = some s → ¬ s = "") : jsTruthy x = x.isSome := by
  rcases x with _ | s
  · rfl
  · have hne := hx s rfl
    have h2 : s.isEmpty = false := by
      by_cases hb : s.isEmpty = true
      · exact absurd ((String.isEmpty_iff s).mp hb) hne
      · simpa using hb
    simp [jsTruthy, h2]

theorem isEmpty_false_of_ne (s : String) (h : ¬ s = "") : s.isEmpty = false := by
  by_cases hb : s.isEmpty = true
  · exact absurd ((String.isEmpty_iff s).mp hb) h
  · simpa using hb

/-- C9 (amended): contactInfo copies phone, email and website from the
record when present; when email is absent but a website is present it
synthesizes info@domain with provenance estimated; but hasContact is
true iff the record's phone, email or website is present OR, when the
phone is absent, a phone-shaped pattern is extracted from the address —
so hasContact does not coincide with presence of the three fields. -/
theorem claim_C9_contact_info (lead : Lead) :
    ((enrichContactInfo lead).hasContact = true ↔
      (jsStr lead.phone).isSome = true ∨ (jsStr lead.email).isSome = true ∨
      (jsStr lead.website).isSome = true ∨
      (jsStr lead.phone = none ∧
        ∃ a, jsStr lead.address = some a ∧ (matchPhone a).isSome = true)) ∧
    (∀ p, jsStr lead.phone = some p → (enrichContactInfo lead).phone = some p) ∧
    (enrichContactInfo lead).website = jsStr lead.website ∧
    (∀ e, jsStr lead.email = some e →
      (enrichContactInfo lead).email = some e ∧
      (enrichContactInfo lead).emailType = none) ∧
    (∀ w d, jsStr lead.email = none → jsStr lead.website = some w →
      extractDomain w = some d → d.isEmpty = false →
      (enrichContactInfo lead).email = some ("info@" ++ d) ∧
      (enrichContactInfo lead).emailType = some "estimated") := by
  refine ⟨?_, ?_, rfl, ?_, ?_⟩
  · rcases hP : jsStr lead.phone with _ | p
    · rcases hE : jsStr lead.email with _ | e
      · rcases hW : jsStr lead.website with _ | w
        · rcases hA : jsStr lead.address with _ | a
          · simp [enrichContactInfo, hP, hE, hW, hA, jsTruthy]
          · cases hm : matchPhone a with
            | none => simp [enrichContactInfo, hP, hE, hW, hA, hm, jsTruthy]
            | some s =>
              have h10 := matchPhone_some_length a s hm
              have hne : ¬ s = "" := by
                intro hcon
                subst hcon
                simp at h10
              simp [enrichContactInfo, hP, hE, hW, hA, hm, jsTruthy,
                isEmpty_false_of_ne s hne]
        · have hwne := jsStr_some_ne lead.website w hW
          cases hd : extractDomain w with
          | none =>
            simp [enrichContactInfo, hP, hE, hW, hd, jsTruthy,
              isEmpty_false_of_ne w hwne]
          | some d =>
            by_cases hde : d.isEmpty = true <;>
              simp [enrichContactInfo, hP, hE, hW, hd, hde, jsTruthy,
                isEmpty_false_of_ne w hwne]
      · have hene := jsStr_some_ne lead.email e hE
        simp [enrichContactInfo, hP, hE, jsTruthy, isEmpty_false_of_ne e hene]
    · have hpne := jsStr_some_ne lead.phone p hP
      simp [enrichContactInfo, hP, jsTruthy, isEmpty_false_of_ne p hpne]
  · intro p hp
    simp [enrichContactInfo, hp]
  · intro e he
    refine ⟨?_, ?_⟩ <;> simp [enrichContactInfo, he]
  · intro w d he hw hd hde
    refine ⟨?_, ?_⟩ <;> simp [enrichContactInfo, he, hw, hd, hde]

/-- C9 counterexample: the record leadC9 has no phone, email or website,
yet hasContact is true, because a phone pattern is extracted from its
address by the phone regex; this refutes the claim that hasContact holds
iff one of the record's three contact fields is present. -/
theorem claim_C9_counterexample :
    (enrichContactInfo leadC9).hasContact = true ∧
    leadC9.phone = none ∧ leadC9.email = none ∧ leadC9.website = none ∧
    (enrichContactInfo leadC9).phone = some "555-123-4567" := by
  refine ⟨by decide, rfl, rfl, rfl, by decide⟩

/-- C9 witness: the contact-info characterization applied to the two
concrete records leadC9w (all three fields present) and leadC9e (website
only, estimated email synthesized from its domain). -/
theorem claim_C9_witness :
    (enrichContactInfo leadC9w).hasContact = true ∧
    (enrichContactInfo leadC9w).phone = some "111-222-3333" ∧
    (enrichContactInfo leadC9w).email = some "a@b.c" ∧
    (enrichContactInfo leadC9w).emailType = none ∧
    (enrichContactInfo leadC9e).email = some "info@shop.com" ∧
    (enrichContactInfo leadC9e).emailType = some "estimated" := by
  have h1 := claim_C9_contact_info leadC9w
  have h2 := claim_C9_contact_info leadC9e
  refine ⟨(h1.1).mpr (Or.inl (by decide)),
    h1.2.1 "111-222-3333" (by decide),
    (h1.2.2.2.1 "a@b.c" (by decide)).1,
    (h1.2.2.2.1 "a@b.c" (by decide)).2,
    (h2.2.2.2.2 "https://www.shop.com/a" "shop.com" (by decide) (by decide)
      (by decide) (by decide)).1,
    (h2.2.2.2.2 "https://www.shop.com/a" "shop.com" (by decide) (by decide)
      (by decide) (by decide)).2⟩

theorem lookup_bump_self (k : String) (l : List (String × Nat)) :
    (bump k l).lookup k = some (((l.lookup k).getD 0) + 1) := by
  induction l with
  | nil => simp [bump, List.lookup]
  | cons q t ih =>
    rcases q with ⟨k1, c1⟩
    by_cases hk : k1 = k
    · subst hk
      simp [bump, List.lookup]
    · have hb1 : (k1 == k) = false := by simp [hk]
      have hb2 : (k == k1) = false := by simp [Ne.symm hk]
      simp [bump, List.lookup, hb1, hb2, ih]

theorem lookup_bump_ne (k k2 : String) (l : List (String × Nat)) (h : ¬ k2 = k) :
    (bump k l).lookup k2 = l.lookup k2 := by
  induction l with
  | nil =>
    have hb : (k2 == k) = false := by simp [h]
    simp [bump, List.lookup, hb]
  | cons q t ih =>
    rcases q with ⟨k1, c1⟩
    by_cases hk : k1 = k
    · subst hk
      have hb : (k2 == k1) = false := by simp [h]
      simp [bump, List.lookup, hb]
    · have hb : (k1 == k) = false := by simp [hk]
      cases hkb : (k2 == k1) <;> simp [bump, List.lookup, hb, hkb, ih]

theorem lookup_isSome_iff_mem_keys (k : String) (l : List (String × Nat)) :
    (l.lookup k).isSome = true ↔ k ∈ l.map Prod.fst := by
  induction l with
  | nil => simp [List.lookup]
  | cons q t ih =>
    rcases q with ⟨k1, c1⟩
    cases hkb : (k == k1) with
    | true =>
      have hk : k = k1 := by simpa using hkb
      subst hk
      simp [List.lookup]
    | false =>
      have hk : ¬ k = k1 := by simpa using hkb
      simp [List.lookup, hkb, ih, hk]

theorem keys_bump (k : String) (l : List (String × Nat)) :
    (bump k l).map Prod.fst =
      if k ∈ l.map Prod.fst then l.map Prod.fst else l.map Prod.fst ++ [k] := by
  induction l with
  | nil => simp [bump]
  | cons q t ih =>
    rcases q with ⟨k1, c1⟩
    by_cases hk : k1 = k
    · subst hk
      simp [bump]
    · have hb : (k1 == k) = false := by simp [hk]
      by_cases hm : k ∈ t.map Prod.fst <;>
        simp [bump, hb, ih, hm, Ne.symm hk]

theorem nodup_keys_bump (k : String) (l : List (String × Nat))
    (h : (l.map Prod.fst).Nodup) : ((bump k l).map Prod.fst).Nodup := by
  rw [keys_bump]
  split
  · exact h
  · rename_i hns
    simp [List.nodup_append, h, hns]

theorem mem_keys_bump (k k2 : String) (l : List (String × Nat))
    (h : k2 ∈ (bump k l).map Prod.fst) : k2 ∈ l.map Prod.fst ∨ k2 = k := by
  rw [keys_bump] at h
  split at h
  · exact Or.inl h
  · rcases List.mem_append.mp h with h2 | h2
    · exact Or.inl h2
    · simp at h2
      exact Or.inr h2

theorem lookup_of_mem_keys_nodup (l : List (String × Nat)) (p : String × Nat)
    (h : (l.map Prod.fst).Nodup) (hp : p ∈ l) : l.lookup p.1 = some p.2 := by
  induction l with
  | nil => simp at hp
  | cons q t ih =>
    rcases List.mem_cons.mp hp with h2 | h2
    · subst h2
      simp [List.lookup]
    · have hq : q.1 ∉ t.map Prod.fst := (List.nodup_cons.mp h).1
      have hne : ¬ p.1 = q.1 := by
        intro hcon
        exact hq (hcon ▸ List.mem_map_of_mem Prod.fst h2)
      have hb : (p.1 == q.1) = false := by simp [hne]
      rcases q with ⟨k1, c1⟩
      simp only [List.lookup, hb]
      exact ih (List.nodup_cons.mp h).2 h2

theorem lookup_kwfold (r : Review) (kws : List String) (hnd : kws.Nodup)
    (found : List (String × Nat)) (k : String) :
    ((kws.foldl (fun f kw => if textContains r.text kw then bump kw f else f)
        found).lookup k) =
      if k ∈ kws ∧ textContains r.text k = true
      then some ((found.lookup k).getD 0 + 1)
      else found.lookup k := by
  induction kws generalizing found with
  | nil => simp
  | cons x xs ih =>
    have hxs : xs.Nodup := (List.nodup_cons.mp hnd).2
    have hxmem : x ∉ xs := (List.nodup_cons.mp hnd).1
    simp only [List.foldl_cons]
    by_cases hk : k = x
    · subst hk
      rw [ih hxs]
      have hnin : ¬ (k ∈ xs ∧ textContains r.text k = true) := fun hcon => hxmem hcon.1
      rw [if_neg hnin]
      by_cases hc : textContains r.text k = true
      · rw [if_pos hc, if_pos ⟨List.mem_cons_self k xs, hc⟩]
        exact lookup_bump_self k found
      · rw [if_neg hc, if_neg (fun hcon => hc hcon.2)]
    · by_cases hcx : textContains r.text x = true
      · rw [if_pos hcx, ih hxs]
        have hb := lookup_bump_ne x k found hk
        by_cases hm : k ∈ xs ∧ textContains r.text k = true
        · have hcc : k ∈ x :: xs ∧ textContains r.text k = true :=
            ⟨List.mem_cons_of_mem x hm.1, hm.2⟩
          rw [if_pos hm, if_pos hcc, hb]
        · have hnc : ¬ (k ∈ x :: xs ∧ textContains r.text k = true) := fun hcon =>
            hm ⟨(List.mem_cons.mp hcon.1).resolve_left hk, hcon.2⟩
          rw [if_neg hm, if_neg hnc, hb]
      · rw [if_neg hcx, ih hxs]
        by_cases hm : k ∈ xs ∧ textContains r.text k = true
        · have hcc : k ∈ x :: xs ∧ textContains r.text k = true :=
            ⟨List.mem_cons_of_mem x hm.1, hm.2⟩
          rw [if_pos hm, if_pos hcc]
        · have hnc : ¬ (k ∈ x :: xs ∧ textContains r.text k = true) := fun hcon =>
            hm ⟨(List.mem_cons.mp hcon.1).resolve_left hk, hcon.2⟩
          rw [if_neg hm, if_neg hnc]

theorem keys_kwfold (r : Review) (kws : List String)
    (found : List (String × Nat)) :
    (((kws.foldl (fun f kw => if textContains r.text kw then bump kw f else f)
        found).map Prod.fst).Nodup ∨ ¬ (found.map Prod.fst).Nodup) ∧
    (∀ k2 ∈ ((kws.foldl (fun f kw => if textContains r.text kw then bump kw f else f)
        found).map Prod.fst), k2 ∈ found.map Prod.fst ∨ k2 ∈ kws) := by
  induction kws generalizing found with
  | nil => exact ⟨by tauto, fun k2 hk2 => Or.inl hk2⟩
  | cons x xs ih =>
    simp only [List.foldl_cons]
    constructor
    · by_cases hnd : (found.map Prod.fst).Nodup
      · rcases (ih (if textContains r.text x = true then bump x found
            else found)).1 with h | h
        · exact Or.inl h
        · exfalso
          apply h
          split
          · exact nodup_keys_bump x found hnd
          · exact hnd
      · exact Or.inr hnd
    · intro k2 hk2
      rcases (ih (if textContains r.text x = true then bump x found
          else found)).2 k2 hk2 with h | h
      · by_cases hc : textContains r.text x = true
        · rw [if_pos hc] at h
          rcases mem_keys_bump x k2 found h with h2 | h2
          · exact Or.inl h2
          · subst h2
            exact Or.inr (List.mem_cons_self _ _)
        · rw [if_neg hc] at h
          exact Or.inl h
      · exact Or.inr (List.mem_cons_of_mem x h)

theorem keywordCounts_keys (negs : List Review) :
    ((keywordCounts negs).map Prod.fst).Nodup ∧
    (∀ k ∈ (keywordCounts negs).map Prod.fst, k ∈ complaintKeywords) := by
  have main : ∀ (negs : List Review) (found : List (String × Nat)),
      (found.map Prod.fst).Nodup →
      (∀ k ∈ found.map Prod.fst, k ∈ complaintKeywords) →
      (((negs.foldl tallyReview found).map Prod.fst).Nodup ∧
        ∀ k ∈ (negs.foldl tallyReview found).map Prod.fst, k ∈ complaintKeywords) := by
    intro negs
    induction negs with
    | nil => exact fun found h1 h2 => ⟨h1, h2⟩
    | cons r rest ih =>
      intro found h1 h2
      simp only [List.foldl_cons]
      apply ih
      · rcases (keys_kwfold r complaintKeywords found).1 with h | h
        · exact h
        · exact absurd h1 h
      · intro k hk
        rcases (keys_kwfold r complaintKeywords found).2 k hk with h | h
        · exact h2 k h
        · exact h
  exact main negs [] (by simp) (by simp)

theorem lookup_keywordCounts_aux (negs : List Review) (found : List (String × Nat))
    (k : String) (hk : k ∈ complaintKeywords) :
    ((negs.foldl tallyReview found).lookup k) =
      if (found.lookup k).isSome = true ∨
          negs.countP (fun r => textContains r.text k) ≠ 0
      then some ((found.lookup k).getD 0 +
        negs.countP (fun r => textContains r.text k))
      else none := by
  induction negs generalizing found with
  | nil =>
    cases h : found.lookup k with
    | none => simp [h]
    | some c => simp [h]
  | cons r rest ih =>
    simp only [List.foldl_cons]
    rw [ih (tallyReview found r)]
    have htl := lookup_kwfold r complaintKeywords (by decide) found k
    simp only [hk, true_and] at htl
    have htl2 : (tallyReview found r).lookup k =
        if textContains r.text k = true
        then some ((found.lookup k).getD 0 + 1)
        else found.lookup k := htl
    by_cases hc : textContains r.text k = true
    · rw [htl2, if_pos hc]
      have harith : (found.lookup k).getD 0 + 1 +
          rest.countP (fun r => textContains r.text k) =
          (found.lookup k).getD 0 +
            (r :: rest).countP (fun r => textContains r.text k) := by
        rw [List.countP_cons]
        simp [hc]
        omega
      have hcnt : (r :: rest).countP (fun r => textContains r.text k) ≠ 0 := by
        rw [List.countP_cons]
        simp [hc]
      simp only [Option.isSome_some, true_or, if_true, Option.getD_some]
      rw [if_pos (Or.inr hcnt)]
      exact congrArg some harith
    · rw [htl2, if_neg hc]
      have hcnt : (r :: rest).countP (fun r => textContains r.text k) =
          rest.countP (fun r => textContains r.text k) := by
        rw [List.countP_cons]
        simp [hc]
      rw [hcnt]

theorem keywordCounts_entry (negs : List Review) (p : String × Nat)
    (hp : p ∈ keywordCounts negs) :
    p.1 ∈ complaintKeywords ∧
    p.2 = negs.countP (fun r => textContains r.text p.1) ∧ 1 ≤ p.2 := by
  have hkeys := keywordCounts_keys negs
  have hmem : p.1 ∈ (keywordCounts negs).map Prod.fst :=
    List.mem_map_of_mem Prod.fst hp
  have hk : p.1 ∈ complaintKeywords := hkeys.2 _ hmem
  have hlook : (keywordCounts negs).lookup p.1 = some p.2 :=
    lookup_of_mem_keys_nodup _ p hkeys.1 hp
  simp only [keywordCounts] at hlook
  rw [lookup_keywordCounts_aux negs [] p.1 hk] at hlook
  by_cases hn : negs.countP (fun r => textContains r.text p.1) ≠ 0
  · rw [if_pos (Or.inr hn)] at hlook
    injection hlook with hv
    have hv2 : negs.countP (fun r => textContains r.text p.1) = p.2 := by
      simpa using hv
    refine ⟨hk, hv2.symm, ?_⟩
    omega
  · rw [if_neg ?hcond] at hlook
    · exact absurd hlook (by simp)
    case hcond =>
      intro hcon
      rcases hcon with hcon | hcon
      · simp [List.lookup] at hcon
      · exact hn hcon

/-- C5 (amended): for every review list given to negative-keyword
extraction, each returned pair counts the number of negative reviews
whose lowercased text contains the lexicon term as a substring (not the
total number of substring occurrences); at most 5 pairs are returned,
sorted by count descending, with ties resolved by the order in which
terms were first found while scanning the negative reviews in list order
(the lexicon order is only the scan order within one review); the result
is empty when there is no negative review. -/
theorem claim_C5_keyword_extraction (rs : List Review) :
    ∃ out, extractNegativeKeywords (some rs) = Except.ok out ∧
      out.length ≤ 5 ∧
      out.Pairwise (fun a b => b.2 ≤ a.2) ∧
      (∀ p ∈ out, p.1 ∈ complaintKeywords ∧
        p.2 = ((rs.filter isNegKW).filter
          (fun r => textContains r.text p.1)).length ∧
        1 ≤ p.2) ∧
      (rs.filter isNegKW = [] → out = []) ∧
      out = (sortDescBy (fun p => (p.2 : Int))
        (keywordCounts (rs.filter isNegKW))).take 5 ∧
      (∀ c : Nat,
        ((sortDescBy (fun p => (p.2 : Int)) (keywordCounts (rs.filter isNegKW))).filter
          (fun p => p.2 == c)) =
        (keywordCounts (rs.filter isNegKW)).filter (fun p => p.2 == c)) := by
  refine ⟨(sortDescBy (fun p => (p.2 : Int))
    (keywordCounts (rs.filter isNegKW))).take 5, ?_, ?_, ?_, ?_, ?_, rfl, ?_⟩
  · by_cases hne : (rs.filter isNegKW).length = 0
    · have hnil : rs.filter isNegKW = [] := List.length_eq_zero.mp hne
      simp [extractNegativeKeywords, hnil, keywordCounts, sortDescBy]
    · simp [extractNegativeKeywords, hne]
  · exact List.length_take_le 5 _
  · have hs := sortDescBy_sorted (fun p : String × Nat => (p.2 : Int))
      (keywordCounts (rs.filter isNegKW))
    have hsub := hs.sublist (List.take_sublist 5 (sortDescBy
      (fun p : String × Nat => (p.2 : Int)) (keywordCounts (rs.filter isNegKW))))
    exact hsub.imp (fun {a b} hab => by exact_mod_cast hab)
  · intro p hp
    have hp2 : p ∈ sortDescBy (fun p : String × Nat => (p.2 : Int))
        (keywordCounts (rs.filter isNegKW)) :=
      (List.take_sublist 5 _).subset hp
    have hp3 : p ∈ keywordCounts (rs.filter isNegKW) :=
      (sortDescBy_perm _ _).mem_iff.mp hp2
    have he := keywordCounts_entry (rs.filter isNegKW) p hp3
    refine ⟨he.1, ?_, he.2.2⟩
    rw [he.2.1, List.countP_eq_length_filter]
  · intro h
    rw [h]
    simp [keywordCounts, sortDescBy]
  · intro c
    have hcong : ∀ (ls : List (String × Nat)),
        ls.filter (fun p => p.2 == c) =
          ls.filter (fun p => ((p.2 : Int) == (c : Int))) := by
      intro ls
      apply List.filter_congr
      intro x _
      exact natBeqIntBeq x.2 c
    rw [hcong, hcong]
    exact sortDescBy_filter (fun p : String × Nat => (p.2 : Int)) (c : Int) _

/-- C5 counterexample: one negative review with text "slow slow" yields
the pair (slow, 1) although "slow" occurs twice, refuting occurrence
counting; and two tied terms found in review order come out as rude
before slow although the lexicon enumerates slow (index 0) before rude
(index 1), refuting the lexicon-order tie-break. -/
theorem claim_C5_counterexample :
    (extractNegativeKeywords (some [revSlowTwice])).toOption = some [("slow", 1)] ∧
    countOccur (lowerStr "slow slow").data "slow".data = 2 ∧
    (extractNegativeKeywords (some [revRudeOnce, revSlowOnce])).toOption =
      some [("rude", 1), ("slow", 1)] ∧
    complaintKeywords.indexOf "slow" = 0 ∧
    complaintKeywords.indexOf "rude" = 1 := by
  refine ⟨by decide, by decide, by decide, by decide, by decide⟩

/-- C5 witness: the characterization applied at the concrete review list
rsC5w. -/
theorem claim_C5_witness :
    (extractNegativeKeywords (some rsC5w)).toOption = some [("slow", 1), ("rude", 1)] ∧
    (∃ out, extractNegativeKeywords (some rsC5w) = Except.ok out ∧ out.length ≤ 5) := by
  obtain ⟨out, h1, h2, _⟩ := claim_C5_keyword_extraction rsC5w
  exact ⟨by decide, out, h1, h2⟩
